import Mathlib

/-!
Verification development for the `bayer-backend` repository.

Python strings are modelled as `List Char` (ASCII-faithful: Python's
unicode-aware digit parsing and whitespace classes are modelled by their
ASCII fragments, which is the alphabet every month label and table
reference in this system uses).  Pure functions of
`app/utils/months.py` are embedded directly; the BigQuery service layer
(`app/services/bigquery_service.py`, `app/main.py`) is embedded with the
external Table Store abstracted as oracles, and every issued store call
recorded in a trace.
-/

namespace Bayer

abbrev PyStr := List Char

/-- Coerce a Lean string literal to the `List Char` model. -/
def str (s : String) : PyStr := s.data

/-- Python `str.isspace` characters, ASCII fragment: the six characters
Python's `str.strip()`/`str.split()` treat as whitespace in ASCII. -/
def pyIsSpace (c : Char) : Bool :=
  c = ' ' || c = '\t' || c = '\n' || c = '\r' || c = '\x0b' || c = '\x0c'

/-- Python `str.strip()` (no argument): drop whitespace from both ends. -/
def pyStrip (s : PyStr) : PyStr :=
  ((s.dropWhile pyIsSpace).reverse.dropWhile pyIsSpace).reverse

/-- Python `str.capitalize()`: first character uppercased, rest lowercased. -/
def pyCapitalize : PyStr → PyStr
  | [] => []
  | c :: cs => c.toUpper :: cs.map Char.toLower

/-- The character map underlying Python `value.replace("-", " ")`
(single-character replacement is a character-wise map). -/
def dashToSpace (c : Char) : Char := if c = '-' then ' ' else c

/-- Python `value.replace("-", " ")`. -/
def pyReplaceDash (s : PyStr) : PyStr := s.map dashToSpace

/-- Python `s.split(sep)` for a one-character separator: split at every
occurrence, keeping empty chunks. -/
def pySplitOn (sep : Char) (s : PyStr) : List PyStr :=
  s.splitOnP (fun c => c == sep)

/-- Python `s.split()` (no argument): maximal runs of non-whitespace. -/
def pyWords (s : PyStr) : List PyStr :=
  (s.splitOnP pyIsSpace).filter (fun w => !w.isEmpty)

/-- ASCII digit test, `'0' ≤ c ≤ '9'` — the class Python's integer grammar
accepts in its ASCII fragment. -/
def isDigitCh (c : Char) : Bool := 48 ≤ c.toNat && c.toNat ≤ 57

/-- Numeric value of an ASCII digit character. -/
def charDigit (c : Char) : Nat := c.toNat - 48

/-- Value of a string of ASCII digits, most significant first. -/
def digitsVal (cs : PyStr) : Nat := cs.foldl (fun a c => 10 * a + charDigit c) 0

/-- Tail of Python's integer-literal digit grammar, after an initial digit:
digits with single underscores allowed only between digits. -/
def udTail : PyStr → Bool
  | [] => true
  | c :: rest =>
    if c = '_' then
      match rest with
      | c2 :: rest2 => isDigitCh c2 && udTail rest2
      | [] => false
    else isDigitCh c && udTail rest

/-- Python's integer-literal digit grammar: nonempty, starts and ends with a
digit, underscores only between digits. -/
def udOk : PyStr → Bool
  | [] => false
  | c :: rest => isDigitCh c && udTail rest

/-- Parse an unsigned run of digits (with legal underscores) to its value. -/
def parseUDigits (cs : PyStr) : Option Nat :=
  if udOk cs then some (digitsVal (cs.filter (fun c => c != '_'))) else none

/-- Python `int(s)` on ASCII input: strip whitespace, optional sign, digits
with legal underscores; `none` models `ValueError`. -/
def pyInt (s : PyStr) : Option Int :=
  match pyStrip s with
  | [] => none
  | c :: rest =>
    if c = '+' then (parseUDigits rest).map Int.ofNat
    else if c = '-' then (parseUDigits rest).map (fun m => -Int.ofNat m)
    else (parseUDigits (c :: rest)).map Int.ofNat

/-- Decimal digits of `n`, fueled accumulator form (fuel keeps the recursion
structural, so the kernel can evaluate it). -/
def natReprAux : Nat → Nat → PyStr → PyStr
  | 0, _, acc => acc
  | fuel + 1, n, acc =>
    if n < 10 then Nat.digitChar (n % 10) :: acc
    else natReprAux fuel (n / 10) (Nat.digitChar (n % 10) :: acc)

/-- Decimal representation of a natural number ("0" for 0). -/
def natRepr (n : Nat) : PyStr := natReprAux (n + 1) n []

/-- Left-pad with '0' to width 2. -/
def padZero2 (cs : PyStr) : PyStr :=
  if cs.length < 2 then List.replicate (2 - cs.length) '0' ++ cs else cs

/-- Python `f"{n:02d}"`: decimal representation zero-padded to width 2,
the sign counting toward the width. -/
def fmt02 (n : Int) : PyStr :=
  if n < 0 then '-' :: natRepr n.natAbs else padZero2 (natRepr n.toNat)

/-! ### Tables from `app/utils/months.py` -/

/-- `MONTHS_FULL`. -/
def monthsFull : List PyStr :=
  [str "Enero", str "Febrero", str "Marzo", str "Abril", str "Mayo", str "Junio",
   str "Julio", str "Agosto", str "Septiembre", str "Octubre", str "Noviembre",
   str "Diciembre"]

/-- `MONTHS_FULL_INDEX = {name: idx + 1 for idx, name in enumerate(MONTHS_FULL)}`. -/
def monthsFullIndex : List (PyStr × Int) :=
  [(str "Enero", 1), (str "Febrero", 2), (str "Marzo", 3), (str "Abril", 4),
   (str "Mayo", 5), (str "Junio", 6), (str "Julio", 7), (str "Agosto", 8),
   (str "Septiembre", 9), (str "Octubre", 10), (str "Noviembre", 11),
   (str "Diciembre", 12)]

/-- `MONTHS_FULL_INDEX.get(name)`. -/
def monthsFullLookup (name : PyStr) : Option Int :=
  monthsFullIndex.lookup name

/-- `MONTHS_ABBR`. -/
def monthsAbbr : List (PyStr × Int) :=
  [(str "Ene", 1), (str "Feb", 2), (str "Mar", 3), (str "Abr", 4),
   (str "May", 5), (str "Jun", 6), (str "Jul", 7), (str "Ago", 8),
   (str "Sep", 9), (str "Oct", 10), (str "Nov", 11), (str "Dic", 12)]

/-- `MONTHS_ABBR.get(abbr)`. -/
def monthsAbbrLookup (abbr : PyStr) : Option Int :=
  monthsAbbr.lookup abbr

/-- `MONTH_NUM_TO_ABBR = {value: key for key, value in MONTHS_ABBR.items()}`,
as `.get(n)`. -/
def monthNumToAbbr (n : Int) : Option PyStr :=
  [((1 : Int), str "Ene"), (2, str "Feb"), (3, str "Mar"), (4, str "Abr"),
   (5, str "May"), (6, str "Jun"), (7, str "Jul"), (8, str "Ago"),
   (9, str "Sep"), (10, str "Oct"), (11, str "Nov"), (12, str "Dic")].lookup n

/-! ### Functions of `app/utils/months.py` -/

/-- Loop of `dedupe_preserve_order`, carrying the `seen` set. -/
def dedupeGo (seen : List PyStr) : List PyStr → List PyStr
  | [] => []
  | v :: rest => if v ∈ seen then dedupeGo seen rest else v :: dedupeGo (v :: seen) rest

/-- `dedupe_preserve_order(values)`. -/
def dedupe_preserve_order (values : List PyStr) : List PyStr := dedupeGo [] values

/-- `parse_instar_label(label)`: unpack `label.split("/")` into exactly two
parts (`ValueError` otherwise), look the capitalized trimmed month name up,
parse the year; sentinel `(9999, 99)` on any failure. -/
def parse_instar_label (label : PyStr) : Int × Int :=
  match pySplitOn '/' label with
  | [monthName, yearStr] =>
    match monthsFullLookup (pyCapitalize (pyStrip monthName)) with
    | none => (9999, 99)
    | some idx =>
      match pyInt (pyStrip yearStr) with
      | some y => (y, idx)
      | none => (9999, 99)
  | _ => (9999, 99)

/-- Lexicographic `≤` on `(year, month)` pairs — the order Python uses to
compare the key tuples produced by `parse_instar_label` / `parse_admedia_stored`. -/
def pairLeB (a b : Int × Int) : Bool :=
  decide (a.1 < b.1) || (decide (a.1 = b.1) && decide (a.2 ≤ b.2))

/-- Stable insertion: `a` goes after every element `b` with `le b a`. -/
def stableInsert (le : α → α → Bool) (a : α) : List α → List α
  | [] => [a]
  | b :: l => if le b a then b :: stableInsert le a l else a :: b :: l

/-- Stable sort by a total preorder, processing input left to right.
Python's `sorted` is a stable sort by the same preorder, and a stable sort's
output is uniquely determined by it, so this is extensionally `sorted`. -/
def pySorted (le : α → α → Bool) (l : List α) : List α :=
  l.foldl (fun acc x => stableInsert le x acc) []

/-- `sort_instar_months(months)`. -/
def sort_instar_months (months : List PyStr) : List PyStr :=
  pySorted (fun a b => pairLeB (parse_instar_label a) (parse_instar_label b))
    (dedupe_preserve_order months)

/-- The abbreviation of `format_admedia_stored`: part 2 when present, else
`MONTH_NUM_TO_ABBR.get(month_num)`, else (`abbr is None` re-lookup with
default) the zero-padded number `f"{month_num:02d}"`. -/
def abbrFor (n : Int) (rest : List PyStr) : PyStr :=
  match rest with
  | a :: _ => a
  | [] =>
    match monthNumToAbbr n with
    | some a => a
    | none => fmt02 n

/-- `format_admedia_stored(value)`: trim, dashes to spaces, split into
whitespace-separated parts; fall back to the trimmed input when there are no
parts or part 1 is present but not an integer (`ValueError`); else emit
`f"{year} {month_num:02d} {abbr}"`, the month number being part 1 when
present and `0` when the parts stop at the year. -/
def format_admedia_stored (value : PyStr) : PyStr :=
  match pyWords (pyReplaceDash (pyStrip value)) with
  | [] => pyStrip value
  | [year] => year ++ ' ' :: (fmt02 0 ++ ' ' :: abbrFor 0 [])
  | year :: m1 :: rest =>
    match pyInt m1 with
    | none => pyStrip value
    | some n => year ++ ' ' :: (fmt02 n ++ ' ' :: abbrFor n rest)

/-- `parse_admedia_stored(value)`: format, split, parse the first two tokens
as integers; sentinel on `IndexError`/`ValueError`. -/
def parse_admedia_stored (value : PyStr) : Int × Int :=
  match pyWords (format_admedia_stored value) with
  | p0 :: p1 :: _ =>
    match pyInt p0, pyInt p1 with
    | some y, some m => (y, m)
    | _, _ => (9999, 99)
  | _ => (9999, 99)

/-- `sort_admedia_months(months)`. -/
def sort_admedia_months (months : List PyStr) : List PyStr :=
  pySorted (fun a b => pairLeB (parse_admedia_stored a) (parse_admedia_stored b))
    (dedupe_preserve_order (months.map format_admedia_stored))

/-- `admedia_label_to_stored(label)`. -/
def admedia_label_to_stored (label : PyStr) : PyStr :=
  let raw := pyStrip label
  if '/' ∈ raw then
    match pySplitOn '/' raw with
    | [monthAbbr, year] =>
      match monthsAbbrLookup (pyCapitalize (pyStrip monthAbbr)) with
      | some n => pyStrip year ++ ' ' :: (fmt02 n ++ ' ' :: pyCapitalize (pyStrip monthAbbr))
      | none => format_admedia_stored raw
    | _ => format_admedia_stored raw
  else format_admedia_stored raw

/-- `admedia_stored_to_label(value)`. -/
def admedia_stored_to_label (value : PyStr) : PyStr :=
  match pyWords (format_admedia_stored value) with
  | year :: p1 :: rest =>
    match pyInt p1 with
    | some n =>
      let abbr :=
        match rest with
        | a :: _ => a
        | [] => (monthNumToAbbr n).getD p1
      abbr ++ '/' :: year
    | none => pyStrip value
  | _ => pyStrip value

/-- Loop body of `normalize_admedia_months`. -/
def normAdmediaGo : List PyStr → List PyStr
  | [] => []
  | v :: rest =>
    let raw := pyStrip v
    if raw.isEmpty then normAdmediaGo rest
    else
      (if '/' ∈ raw then admedia_label_to_stored raw else format_admedia_stored raw)
        :: normAdmediaGo rest

/-- `normalize_admedia_months(months)`. -/
def normalize_admedia_months (months : List PyStr) : List PyStr :=
  dedupe_preserve_order (normAdmediaGo months)

/-- Loop body of `normalize_instar_months`. -/
def normInstarGo : List PyStr → List PyStr
  | [] => []
  | v :: rest =>
    let raw := pyStrip v
    if raw.isEmpty then normInstarGo rest else raw :: normInstarGo rest

/-- `normalize_instar_months(months)`. -/
def normalize_instar_months (months : List PyStr) : List PyStr :=
  dedupe_preserve_order (normInstarGo months)

/-! ### Service layer (`app/services/bigquery_service.py`, `app/main.py`)

The external Table Store (the BigQuery client) is abstracted: client
construction is a parameter `clientRes` (`_get_client` reads credentials
from the environment), and each store primitive is an oracle.  Every call
issued to the store is recorded in a trace, in issue order. -/

/-- `BigQueryServiceError`, carrying its message. -/
abbrev ServiceError := PyStr

/-- A call issued to the external Table Store, with the data that reaches
it: the interpolated identifiers and the bound query parameters. -/
inductive StoreCall
  | deleteMonths (fqTable monthCol : PyStr) (months : List PyStr)
  | insertSelect (destination source monthCol : PyStr) (months : Option (List PyStr))
  | getTable (table : PyStr)
  | selectExport (fqTable monthCol : PyStr) (columns : Option (List PyStr))
      (months : List PyStr)
  | deleteTable (table : PyStr)
deriving DecidableEq

/-- `TableConfig` dataclass. -/
structure TableConfig where
  project_id : PyStr
  dataset : PyStr
  table : PyStr
  month_column : PyStr
deriving DecidableEq

/-- `TableConfig.fq_table`. -/
def TableConfig.fq_table (c : TableConfig) : PyStr :=
  c.project_id ++ '.' :: c.dataset ++ '.' :: c.table

/-- The `Settings` fields the service reads. -/
structure Settings where
  bigquery_project_id : Option PyStr
  instar_project_id : Option PyStr
  instar_dataset : PyStr
  instar_table : PyStr
  instar_month_column : PyStr
  admedia_project_id : Option PyStr
  admedia_dataset : PyStr
  admedia_table : PyStr
  admedia_month_column : PyStr

/-- Python `a or b` on optional strings: `None` and `""` are falsy. -/
def pyOrStr (a b : Option PyStr) : Option PyStr :=
  match a with
  | some s => if s.isEmpty then b else some s
  | none => b

/-- Message of the `_resolve_project_id` configuration error. -/
def resolveProjectErr : ServiceError :=
  str "BigQuery project id is not configured. Set GCP_PROJECT_ID or dataset-specific project env vars."

/-- `_resolve_project_id`. -/
def resolve_project_id (settings : Settings) (specific : Option PyStr) :
    Except ServiceError PyStr :=
  match pyOrStr specific settings.bigquery_project_id with
  | some p => if p.isEmpty then .error resolveProjectErr else .ok p
  | none => .error resolveProjectErr

/-- `_build_table_config`. -/
def build_table_config (settings : Settings) (project_id : Option PyStr)
    (dataset table month_column : PyStr) : Except ServiceError TableConfig :=
  match resolve_project_id settings project_id with
  | .error e => .error e
  | .ok p => .ok ⟨p, dataset, table, month_column⟩

/-- Oracle for a DML query job: a Google API error message, or the job's
`num_dml_affected_rows` (`none` models a `None` count). -/
abbrev DmlOracle := StoreCall → Except PyStr (Option Int)

/-- Message wrapping a store failure of `_delete_months`. -/
def deleteErrMsg (fq m : PyStr) : ServiceError :=
  str "Error deleting months from " ++ fq ++ str ": " ++ m

/-- `_delete_months`: result together with the trace of issued store calls.
The empty-months guard returns before the client is even obtained. -/
def delete_months_impl (clientRes : Except ServiceError Unit) (oracle : DmlOracle)
    (config : TableConfig) (months : List PyStr) :
    Except ServiceError Int × List StoreCall :=
  if months.isEmpty then (.ok 0, [])
  else
    match clientRes with
    | .error e => (.error e, [])
    | .ok _ =>
      let call := StoreCall.deleteMonths config.fq_table config.month_column months
      match oracle call with
      | .ok n => (.ok (n.getD 0), [call])
      | .error m => (.error (deleteErrMsg config.fq_table m), [call])

/-- `delete_instar_months`. -/
def delete_instar_months (settings : Settings) (clientRes : Except ServiceError Unit)
    (oracle : DmlOracle) (months : List PyStr) :
    Except ServiceError Int × List StoreCall :=
  match build_table_config settings settings.instar_project_id settings.instar_dataset
      settings.instar_table settings.instar_month_column with
  | .error e => (.error e, [])
  | .ok config => delete_months_impl clientRes oracle config (normalize_instar_months months)

/-- `delete_admedia_months`. -/
def delete_admedia_months (settings : Settings) (clientRes : Except ServiceError Unit)
    (oracle : DmlOracle) (months : List PyStr) :
    Except ServiceError Int × List StoreCall :=
  match build_table_config settings settings.admedia_project_id settings.admedia_dataset
      settings.admedia_table settings.admedia_month_column with
  | .error e => (.error e, [])
  | .ok config => delete_months_impl clientRes oracle config (normalize_admedia_months months)

/-- Character class of the project segment of `_TABLE_PATTERN`
(`[A-Za-z0-9-]`). -/
def projChar (c : Char) : Bool := c.isAlpha || c.isDigit || c = '-'

/-- Character class of the dataset segment (`[A-Za-z0-9_]`). -/
def datasetChar (c : Char) : Bool := c.isAlpha || c.isDigit || c = '_'

/-- Character class of the table segment (`[A-Za-z0-9_$]`). -/
def tableChar (c : Char) : Bool := c.isAlpha || c.isDigit || c = '_' || c = '$'

/-- Full-match semantics of `_TABLE_PATTERN` on the stripped candidate:
since `.` is in none of the segment classes, a match is exactly three
nonempty dot-separated segments over their respective classes.
(`re.match` with a trailing `$` could also accept a trailing newline, but
the candidate is stripped first, so it never ends in one.) -/
def tablePatternMatch (s : PyStr) : Bool :=
  match pySplitOn '.' s with
  | [a, b, c] =>
    !a.isEmpty && a.all projChar && !b.isEmpty && b.all datasetChar
      && !c.isEmpty && c.all tableChar
  | _ => false

/-- Message of the table-reference validation error. -/
def tableRefErr : ServiceError :=
  str "Table names must be fully-qualified (project.dataset.table) and contain only alphanumeric, '_', '-' or '$' characters."

/-- `_validate_table_reference`. -/
def validate_table_reference (table : PyStr) : Except ServiceError PyStr :=
  let candidate := pyStrip table
  if tablePatternMatch candidate then .ok candidate else .error tableRefErr

/-- Python truthiness of an optional list (`if months:`). -/
def optListTruthy (l : Option (List PyStr)) : Bool :=
  match l with
  | some (_ :: _) => true
  | _ => false

/-- Message wrapping a store failure of `append_rows`. -/
def appendErrMsg (source destination m : PyStr) : ServiceError :=
  str "Error appending data from " ++ source ++ str " to " ++ destination ++ str ": " ++ m

/-- `append_rows`: validate both references, normalize the optional month
filter per dataset family, then issue one `INSERT INTO ... SELECT` with the
months bound as a parameter when the normalized list is nonempty. -/
def append_rows (clientRes : Except ServiceError Unit) (oracle : DmlOracle)
    (source_table destination_table month_column : PyStr)
    (months : Option (List PyStr)) (dataset_type : PyStr) :
    Except ServiceError Int × List StoreCall :=
  match validate_table_reference source_table with
  | .error e => (.error e, [])
  | .ok source =>
    match validate_table_reference destination_table with
    | .error e => (.error e, [])
    | .ok destination =>
      let normalized :=
        if optListTruthy months then
          if dataset_type = str "admedia" then normalize_admedia_months (months.getD [])
          else normalize_instar_months (months.getD [])
        else []
      match clientRes with
      | .error e => (.error e, [])
      | .ok _ =>
        let call := StoreCall.insertSelect destination source month_column
          (if normalized.isEmpty then none else some normalized)
        match oracle call with
        | .ok n => (.ok (n.getD 0), [call])
        | .error m => (.error (appendErrMsg source destination m), [call])

/-- Oracle for `get_table`: error message or the schema's column names. -/
abbrev SchemaOracle := PyStr → Except PyStr (List PyStr)

/-- Message wrapping a store failure of `list_columns`. -/
def schemaErrMsg (candidate m : PyStr) : ServiceError :=
  str "Error fetching schema for " ++ candidate ++ str ": " ++ m

/-- `list_columns`. -/
def list_columns (clientRes : Except ServiceError Unit) (schemaOracle : SchemaOracle)
    (table : PyStr) : Except ServiceError (List PyStr) × List StoreCall :=
  match validate_table_reference table with
  | .error e => (.error e, [])
  | .ok candidate =>
    match clientRes with
    | .error e => (.error e, [])
    | .ok _ =>
      match schemaOracle candidate with
      | .ok cols => (.ok cols, [StoreCall.getTable candidate])
      | .error m => (.error (schemaErrMsg candidate m), [StoreCall.getTable candidate])

/-- A result row, as column/value pairs. -/
abbrev Row := List (PyStr × PyStr)

/-- Oracle for a SELECT query job. -/
abbrev QueryOracle := StoreCall → Except PyStr (List Row)

/-- Message of the empty-month-selection validation error of `export_rows`. -/
def exportEmptyMonthsErr : ServiceError := str "Seleccioná al menos un mes para exportar."

/-- Python `", ".join(...)`. -/
def joinComma : List PyStr → PyStr
  | [] => []
  | [x] => x
  | x :: xs => x ++ str ", " ++ joinComma xs

/-- Message wrapping a store failure of `export_rows`. -/
def exportErrMsg (fq m : PyStr) : ServiceError :=
  str "Error exporting datos desde " ++ fq ++ str ": " ++ m

/-- `export_rows`: the emptiness guard checks the raw `months` argument;
normalization happens after it, and the normalized list is what is bound to
the `@months` query parameter.  `columns = none` models the `"*"` clause. -/
def export_rows (clientRes : Except ServiceError Unit) (schemaOracle : SchemaOracle)
    (queryOracle : QueryOracle) (config : TableConfig) (months : List PyStr)
    (dataset_type : PyStr) (selected_columns : Option (List PyStr)) :
    Except ServiceError (List PyStr × List Row) × List StoreCall :=
  if months.isEmpty then (.error exportEmptyMonthsErr, [])
  else
    match clientRes with
    | .error e => (.error e, [])
    | .ok _ =>
      let normalized :=
        if dataset_type = str "admedia" then normalize_admedia_months months
        else normalize_instar_months months
      let step := list_columns clientRes schemaOracle config.fq_table
      match step.1 with
      | .error e => (.error e, step.2)
      | .ok available =>
        let sel := if optListTruthy selected_columns then selected_columns.getD [] else []
        let invalid := sel.filter (fun c => !(available.contains c))
        if !sel.isEmpty && !invalid.isEmpty then
          (.error (str "Columnas inválidas solicitadas: " ++ joinComma invalid), step.2)
        else
          let fieldnames := if sel.isEmpty then available else sel
          let call := StoreCall.selectExport config.fq_table config.month_column
            (if sel.isEmpty then none else some sel) normalized
          match queryOracle call with
          | .ok rows => (.ok (fieldnames, rows), step.2 ++ [call])
          | .error m => (.error (exportErrMsg config.fq_table m), step.2 ++ [call])

/-- The `TableImportResponse` schema. -/
structure TableImportResponse where
  table_name : PyStr
  temp_table : PyStr
  rows_imported : Int
deriving DecidableEq

/-- The tail of the `import_instar` route (`app/main.py`) after the load job
has created the temporary table:
`try: rows = append_rows(...) except BigQueryServiceError as exc: raise
HTTPException(...) finally: client.delete_table(temp, not_found_ok=True)`
— the `finally` runs on both the success and the failure path, before the
route returns or the exception propagates, and any Google API error of the
delete itself is swallowed (`deleteTableRes` is ignored for the outcome but
the call is still traced).  The HTTP 400 detail carries the service error's
message. -/
def import_merge_cleanup (clientRes : Except ServiceError Unit) (oracle : DmlOracle)
    (_deleteTableRes : Except PyStr Unit) (config : TableConfig) (temp_table : PyStr) :
    Except PyStr TableImportResponse × List StoreCall :=
  let step := append_rows clientRes oracle temp_table config.fq_table config.month_column
    (some []) (str "instar")
  let trace := step.2 ++ [StoreCall.deleteTable temp_table]
  match step.1 with
  | .ok n => (.ok ⟨config.fq_table, temp_table, n⟩, trace)
  | .error e => (.error e, trace)

/-! ### Decidable shape predicates used to state the claims -/

/-- Shape of a valid instar label, exactly as `parse_instar_label` accepts it:
exactly one `/`, the left part (trimmed, capitalized) a full Spanish month
name, the right part an integer year. -/
def validInstarB (s : PyStr) : Bool :=
  match pySplitOn '/' s with
  | [m, y] =>
    (monthsFullLookup (pyCapitalize (pyStrip m))).isSome && (pyInt (pyStrip y)).isSome
  | _ => false

/-- Parse success of `parse_admedia_stored`: the first two whitespace parts of
the formatted value both parse as integers. -/
def admediaParseableB (s : PyStr) : Bool :=
  match pyWords (format_admedia_stored s) with
  | p0 :: p1 :: _ => (pyInt p0).isSome && (pyInt p1).isSome
  | _ => false

/-- Modelled from the spec's words for C7: the claim reads the validator as
one flat character class — "`project.dataset.table`, alphanumeric/`_`/`-`/`$`
only" — for all three segments alike.  To be compared with the code's
per-segment `tablePatternMatch`. -/
def claimFlatChar (c : Char) : Bool :=
  c.isAlpha || c.isDigit || c = '_' || c = '-' || c = '$'

/-- Modelled from the spec's words for C7: full match of
`project.dataset.table` with every segment over the flat class. -/
def claimTablePattern (s : PyStr) : Bool :=
  match pySplitOn '.' s with
  | [a, b, c] =>
    !a.isEmpty && a.all claimFlatChar && !b.isEmpty && b.all claimFlatChar
      && !c.isEmpty && c.all claimFlatChar
  | _ => false

/-! ### Helper lemmas: characters and whitespace -/

theorem char_ne_of_toNat {c d : Char} (h : c.toNat ≠ d.toNat) : c ≠ d :=
  fun e => h (by rw [e])

theorem pyIsSpace_eq_false {c : Char} (h : 33 ≤ c.toNat) : pyIsSpace c = false := by
  simp only [pyIsSpace, Bool.or_eq_false_iff, decide_eq_false_iff_not]
  refine ⟨⟨⟨⟨⟨?_, ?_⟩, ?_⟩, ?_⟩, ?_⟩, ?_⟩ <;>
    · intro e; subst e; exact absurd h (by decide)

theorem toNat_of_isDigitCh {c : Char} (h : isDigitCh c = true) :
    48 ≤ c.toNat ∧ c.toNat ≤ 57 := by
  simpa [isDigitCh] using h

theorem pyIsSpace_of_digit {c : Char} (h : isDigitCh c = true) : pyIsSpace c = false :=
  pyIsSpace_eq_false (by have := toNat_of_isDigitCh h; omega)

theorem digit_ne_dash {c : Char} (h : isDigitCh c = true) : c ≠ '-' :=
  char_ne_of_toNat (by have := toNat_of_isDigitCh h; intro e; rw [e] at this; exact absurd this (by decide))

theorem digit_ne_underscore {c : Char} (h : isDigitCh c = true) : c ≠ '_' :=
  char_ne_of_toNat (by have := toNat_of_isDigitCh h; intro e; rw [e] at this; exact absurd this (by decide))

/-! ### Helper lemmas: strip, split, words -/

theorem mem_of_head? {l : List Char} {c : Char} (h : l.head? = some c) : c ∈ l := by
  cases l with
  | nil => simp at h
  | cons a t =>
    simp only [List.head?_cons, Option.some.injEq] at h
    exact h ▸ List.mem_cons_self a t

theorem head?_append_left {l₁ l₂ : List Char} (h : l₁ ≠ []) :
    (l₁ ++ l₂).head? = l₁.head? := by
  cases l₁ with
  | nil => exact absurd rfl h
  | cons a t => rfl

theorem dropWhile_eq_self_of_head {p : Char → Bool} {l : List Char}
    (h : ∀ c, l.head? = some c → p c = false) : l.dropWhile p = l := by
  cases l with
  | nil => rfl
  | cons a t =>
    have ha := h a rfl
    simp [List.dropWhile_cons, ha]

theorem pyStrip_eq_self {s : PyStr}
    (h1 : ∀ c, s.head? = some c → pyIsSpace c = false)
    (h2 : ∀ c, s.reverse.head? = some c → pyIsSpace c = false) : pyStrip s = s := by
  unfold pyStrip
  rw [dropWhile_eq_self_of_head h1, dropWhile_eq_self_of_head h2]
  exact List.reverse_reverse s

theorem pyStrip_eq_self_of_mem {s : PyStr} (h : ∀ c ∈ s, pyIsSpace c = false) :
    pyStrip s = s :=
  pyStrip_eq_self (fun c hc => h c (mem_of_head? hc))
    (fun c hc => h c (List.mem_reverse.mp (mem_of_head? hc)))

theorem exists_dropWhile_append {p : Char → Bool} :
    ∀ l : List Char, ∃ t, l = t ++ l.dropWhile p := by
  intro l
  induction l with
  | nil => exact ⟨[], rfl⟩
  | cons a t ih =>
    by_cases ha : p a = true
    · obtain ⟨u, hu⟩ := ih
      exact ⟨a :: u, by simp [List.dropWhile_cons, ha, ← hu]⟩
    · exact ⟨[], by simp [List.dropWhile_cons, ha]⟩

theorem mem_dropWhile_imp {p : Char → Bool} {l : List Char} {c : Char}
    (h : c ∈ l.dropWhile p) : c ∈ l := by
  obtain ⟨t, ht⟩ := @exists_dropWhile_append p l
  rw [ht]
  exact List.mem_append_right t h

theorem mem_pyStrip {s : PyStr} {c : Char} (h : c ∈ pyStrip s) : c ∈ s := by
  unfold pyStrip at h
  rw [List.mem_reverse] at h
  have h2 := mem_dropWhile_imp h
  rw [List.mem_reverse] at h2
  exact mem_dropWhile_imp h2

theorem head?_dropWhile {p : Char → Bool} :
    ∀ {l : List Char} {c : Char}, (l.dropWhile p).head? = some c → p c = false := by
  intro l
  induction l with
  | nil => intro c h; simp at h
  | cons a t ih =>
    intro c h
    rw [List.dropWhile_cons] at h
    by_cases ha : p a = true
    · rw [if_pos ha] at h; exact ih h
    · rw [if_neg ha] at h
      simp only [List.head?_cons, Option.some.injEq] at h
      subst h
      exact Bool.eq_false_iff.mpr ha

theorem pyStrip_rev_head? {s : PyStr} {c : Char}
    (h : (pyStrip s).reverse.head? = some c) : pyIsSpace c = false := by
  unfold pyStrip at h
  rw [List.reverse_reverse] at h
  exact head?_dropWhile h

theorem pyStrip_head? {s : PyStr} {c : Char}
    (h : (pyStrip s).head? = some c) : pyIsSpace c = false := by
  have hps : pyStrip s = ((s.dropWhile pyIsSpace).reverse.dropWhile pyIsSpace).reverse := rfl
  obtain ⟨t, ht⟩ :=
    @exists_dropWhile_append pyIsSpace (s.dropWhile pyIsSpace).reverse
  cases hY : (s.dropWhile pyIsSpace).reverse.dropWhile pyIsSpace with
  | nil => rw [hps, hY] at h; simp at h
  | cons a y =>
    have hZ : s.dropWhile pyIsSpace = (a :: y).reverse ++ t.reverse := by
      rw [← List.reverse_reverse (s.dropWhile pyIsSpace), ht, hY, List.reverse_append]
    have hhead : (s.dropWhile pyIsSpace).head? = some c := by
      rw [hZ, head?_append_left (by simp)]
      rw [hps, hY] at h
      exact h
    exact head?_dropWhile hhead

theorem pyStrip_idem (s : PyStr) : pyStrip (pyStrip s) = pyStrip s :=
  pyStrip_eq_self (fun _ h => pyStrip_head? h) (fun _ h => pyStrip_rev_head? h)

theorem mem_of_mem_splitOnP {p : Char → Bool} :
    ∀ {s w : List Char}, w ∈ s.splitOnP p → ∀ c ∈ w, c ∈ s := by
  intro s
  induction s with
  | nil =>
    intro w hw c hc
    rw [List.splitOnP_nil] at hw
    simp only [List.mem_singleton] at hw
    subst hw
    simp at hc
  | cons a t ih =>
    intro w hw c hc
    rw [List.splitOnP_cons] at hw
    by_cases ha : p a = true
    · rw [if_pos ha] at hw
      rcases List.mem_cons.mp hw with h | h
      · subst h; simp at hc
      · exact List.mem_cons_of_mem a (ih h c hc)
    · rw [if_neg ha] at hw
      cases hsp : t.splitOnP p with
      | nil => exact absurd hsp (List.splitOnP_ne_nil p t)
      | cons w0 ws =>
        rw [hsp] at hw
        simp only [List.modifyHead] at hw
        rcases List.mem_cons.mp hw with hh | hh
        · subst hh
          rcases List.mem_cons.mp hc with hc1 | hc1
          · subst hc1; exact List.mem_cons_self c t
          · exact List.mem_cons_of_mem a
              (ih (hsp ▸ List.mem_cons_self w0 ws) c hc1)
        · exact List.mem_cons_of_mem a
            (ih (hsp ▸ List.mem_cons_of_mem w0 hh) c hc)

theorem chunk_no_sep {p : Char → Bool} :
    ∀ {s w : List Char}, w ∈ s.splitOnP p → ∀ c ∈ w, p c = false := by
  intro s
  induction s with
  | nil =>
    intro w hw c hc
    rw [List.splitOnP_nil] at hw
    simp only [List.mem_singleton] at hw
    subst hw
    simp at hc
  | cons a t ih =>
    intro w hw c hc
    rw [List.splitOnP_cons] at hw
    by_cases ha : p a = true
    · rw [if_pos ha] at hw
      rcases List.mem_cons.mp hw with h | h
      · subst h; simp at hc
      · exact ih h c hc
    · rw [if_neg ha] at hw
      cases hsp : t.splitOnP p with
      | nil => exact absurd hsp (List.splitOnP_ne_nil p t)
      | cons w0 ws =>
        rw [hsp] at hw
        simp only [List.modifyHead] at hw
        rcases List.mem_cons.mp hw with hh | hh
        · subst hh
          rcases List.mem_cons.mp hc with hc1 | hc1
          · subst hc1; exact Bool.eq_false_iff.mpr ha
          · exact ih (hsp ▸ List.mem_cons_self w0 ws) c hc1
        · exact ih (hsp ▸ List.mem_cons_of_mem w0 hh) c hc

theorem mem_pyWords_ne_nil {s w : PyStr} (h : w ∈ pyWords s) : w ≠ [] := by
  unfold pyWords at h
  have h2 := (List.mem_filter.mp h).2
  simp only [Bool.not_eq_true'] at h2
  intro e
  subst e
  simp at h2

theorem mem_pyWords_no_space {s w : PyStr} (h : w ∈ pyWords s) :
    ∀ c ∈ w, pyIsSpace c = false :=
  chunk_no_sep (List.mem_filter.mp h).1

theorem mem_pyWords_subset {s w : PyStr} (h : w ∈ pyWords s) : ∀ c ∈ w, c ∈ s :=
  mem_of_mem_splitOnP (List.mem_filter.mp h).1

theorem isEmpty_false_of_ne_nil {α : Type} {w : List α} (h : w ≠ []) :
    w.isEmpty = false := by
  cases w with
  | nil => exact absurd rfl h
  | cons a t => rfl

theorem pyWords_single {w : PyStr} (hne : w ≠ []) (h : ∀ c ∈ w, pyIsSpace c = false) :
    pyWords w = [w] := by
  unfold pyWords
  rw [List.splitOnP_eq_single _ _ (fun x hx => by simp [h x hx])]
  simp [isEmpty_false_of_ne_nil hne]

theorem pyWords_append {w : PyStr} (hne : w ≠ []) (h : ∀ c ∈ w, pyIsSpace c = false)
    (rest : PyStr) : pyWords (w ++ ' ' :: rest) = w :: pyWords rest := by
  unfold pyWords
  rw [List.splitOnP_first _ _ (fun x hx => by simp [h x hx]) ' ' (by decide) rest]
  simp [isEmpty_false_of_ne_nil hne]

theorem pyWords_three {y m ab : PyStr} (hy : y ≠ []) (hm : m ≠ []) (hab : ab ≠ [])
    (h1 : ∀ c ∈ y, pyIsSpace c = false) (h2 : ∀ c ∈ m, pyIsSpace c = false)
    (h3 : ∀ c ∈ ab, pyIsSpace c = false) :
    pyWords (y ++ ' ' :: (m ++ ' ' :: ab)) = [y, m, ab] := by
  rw [pyWords_append hy h1, pyWords_append hm h2, pyWords_single hab h3]

theorem pyReplaceDash_no_dash (s : PyStr) : ∀ c ∈ pyReplaceDash s, c ≠ '-' := by
  intro c hc
  unfold pyReplaceDash at hc
  obtain ⟨a, _, ha⟩ := List.mem_map.mp hc
  unfold dashToSpace at ha
  by_cases h : a = '-'
  · rw [if_pos h] at ha; subst ha; decide
  · rw [if_neg h] at ha; subst ha; exact h

theorem pyReplaceDash_eq_self {s : PyStr} (h : ∀ c ∈ s, c ≠ '-') :
    pyReplaceDash s = s := by
  unfold pyReplaceDash dashToSpace
  induction s with
  | nil => rfl
  | cons a t ih =>
    simp only [List.map_cons]
    rw [if_neg (h a (List.mem_cons_self a t)),
      ih (fun c hc => h c (List.mem_cons_of_mem a hc))]

/-! ### Helper lemmas: decimal digits and `pyInt` -/

theorem digitChar_toNat {n : Nat} (h : n < 10) : (Nat.digitChar n).toNat = 48 + n := by
  interval_cases n <;> rfl

theorem isDigitCh_digitChar {n : Nat} (h : n < 10) : isDigitCh (Nat.digitChar n) = true := by
  simp only [isDigitCh, digitChar_toNat h, Bool.and_eq_true, decide_eq_true_eq]
  omega

theorem digit_ne_plus {c : Char} (h : isDigitCh c = true) : c ≠ '+' :=
  char_ne_of_toNat (by have := toNat_of_isDigitCh h; intro e; rw [e] at this; exact absurd this (by decide))

theorem natReprAux_acc : ∀ (fuel n : Nat) (acc : PyStr),
    natReprAux fuel n acc = natReprAux fuel n [] ++ acc := by
  intro fuel
  induction fuel with
  | zero => intro n acc; rfl
  | succ f ih =>
    intro n acc
    by_cases h : n < 10
    · simp only [natReprAux, if_pos h]
      rfl
    · simp only [natReprAux, if_neg h]
      rw [ih (n / 10) (Nat.digitChar (n % 10) :: acc),
        ih (n / 10) [Nat.digitChar (n % 10)]]
      simp

theorem natReprAux_extra : ∀ (n f1 f2 : Nat), n < f1 → n < f2 →
    natReprAux f1 n [] = natReprAux f2 n [] := by
  intro n
  induction n using Nat.strong_induction_on with
  | _ n ih =>
    intro f1 f2 h1 h2
    cases f1 with
    | zero => omega
    | succ g1 =>
      cases f2 with
      | zero => omega
      | succ g2 =>
        by_cases h : n < 10
        · simp only [natReprAux, if_pos h]
        · simp only [natReprAux, if_neg h]
          rw [natReprAux_acc g1, natReprAux_acc g2]
          rw [ih (n / 10) (by omega) g1 g2 (by omega) (by omega)]

theorem natReprAux_succ (f n : Nat) (acc : PyStr) :
    natReprAux (f + 1) n acc = if n < 10 then Nat.digitChar (n % 10) :: acc
      else natReprAux f (n / 10) (Nat.digitChar (n % 10) :: acc) := rfl

theorem natRepr_eq (n : Nat) :
    natRepr n = if n < 10 then [Nat.digitChar (n % 10)]
      else natRepr (n / 10) ++ [Nat.digitChar (n % 10)] := by
  by_cases h : n < 10
  · rw [if_pos h]
    show natReprAux (n + 1) n [] = _
    rw [natReprAux_succ, if_pos h]
  · rw [if_neg h]
    show natReprAux (n + 1) n [] = natRepr (n / 10) ++ [Nat.digitChar (n % 10)]
    rw [natReprAux_succ, if_neg h, natReprAux_acc n (n / 10)]
    congr 1
    exact natReprAux_extra (n / 10) n (n / 10 + 1) (by omega) (by omega)

theorem natRepr_ne_nil (n : Nat) : natRepr n ≠ [] := by
  rw [natRepr_eq]
  by_cases h : n < 10 <;> simp [h]

theorem natRepr_digits (n : Nat) : ∀ c ∈ natRepr n, isDigitCh c = true := by
  induction n using Nat.strong_induction_on with
  | _ n ih =>
    rw [natRepr_eq]
    by_cases h : n < 10
    · rw [if_pos h]
      intro c hc
      rw [List.mem_singleton] at hc
      subst hc
      exact isDigitCh_digitChar (by omega)
    · rw [if_neg h]
      intro c hc
      rcases List.mem_append.mp hc with h1 | h1
      · exact ih (n / 10) (by omega) c h1
      · rw [List.mem_singleton] at h1
        subst h1
        exact isDigitCh_digitChar (by omega)

theorem charDigit_digitChar {n : Nat} (h : n < 10) : charDigit (Nat.digitChar n) = n := by
  simp [charDigit, digitChar_toNat h]

theorem digitsVal_from_natRepr : ∀ (n a : Nat),
    List.foldl (fun a c => 10 * a + charDigit c) a (natRepr n) =
      a * 10 ^ (natRepr n).length + n := by
  intro n
  induction n using Nat.strong_induction_on with
  | _ n ih =>
    intro a
    rw [natRepr_eq]
    by_cases h : n < 10
    · rw [if_pos h]
      simp only [List.foldl_cons, List.foldl_nil, List.length_singleton,
        charDigit_digitChar (show n % 10 < 10 by omega), pow_one]
      omega
    · rw [if_neg h]
      rw [List.foldl_append, ih (n / 10) (by omega) a]
      simp only [List.foldl_cons, List.foldl_nil, List.length_append,
        List.length_singleton, charDigit_digitChar (show n % 10 < 10 by omega)]
      rw [pow_succ, ← Nat.mul_assoc]
      generalize a * 10 ^ (natRepr (n / 10)).length = q
      omega

theorem digitsVal_natRepr (n : Nat) : digitsVal (natRepr n) = n := by
  have h := digitsVal_from_natRepr n 0
  simpa [digitsVal] using h

theorem digitsVal_cons_zero (cs : PyStr) : digitsVal ('0' :: cs) = digitsVal cs := rfl

theorem digitsVal_padZero2 (cs : PyStr) : digitsVal (padZero2 cs) = digitsVal cs := by
  unfold padZero2
  by_cases h : cs.length < 2
  · rw [if_pos h]
    cases cs with
    | nil => decide
    | cons a t =>
      cases t with
      | nil => exact digitsVal_cons_zero [a]
      | cons b u => exact absurd h (by simp)
  · rw [if_neg h]

theorem fmt02_digits {n : Int} (h : 0 ≤ n) : ∀ c ∈ fmt02 n, isDigitCh c = true := by
  unfold fmt02
  rw [if_neg (by omega)]
  unfold padZero2
  by_cases hl : (natRepr n.toNat).length < 2
  · rw [if_pos hl]
    intro c hc
    rcases List.mem_append.mp hc with h1 | h1
    · rw [List.eq_of_mem_replicate h1]
      decide
    · exact natRepr_digits _ c h1
  · rw [if_neg hl]
    exact natRepr_digits _

theorem fmt02_ne_nil_of_nonneg {n : Int} (h : 0 ≤ n) : fmt02 n ≠ [] := by
  unfold fmt02
  rw [if_neg (by omega)]
  unfold padZero2
  by_cases hl : (natRepr n.toNat).length < 2
  · rw [if_pos hl]
    have := natRepr_ne_nil n.toNat
    intro e
    rcases List.append_eq_nil.mp e with ⟨_, h2⟩
    exact this h2
  · rw [if_neg hl]
    exact natRepr_ne_nil n.toNat

theorem udTail_of_digits : ∀ {cs : PyStr}, (∀ c ∈ cs, isDigitCh c = true) →
    udTail cs = true := by
  intro cs
  induction cs with
  | nil => intro _; rfl
  | cons a t ih =>
    intro h
    have ha := h a (List.mem_cons_self a t)
    unfold udTail
    rw [if_neg (digit_ne_underscore ha)]
    simp [ha, ih (fun c hc => h c (List.mem_cons_of_mem a hc))]

theorem pyInt_nil_eq {s : PyStr} (hs : pyStrip s = []) : pyInt s = none := by
  unfold pyInt
  rw [hs]

theorem pyInt_cons_eq {a : Char} {t s : PyStr} (hs : pyStrip s = a :: t) :
    pyInt s = if a = '+' then (parseUDigits t).map Int.ofNat
      else if a = '-' then (parseUDigits t).map (fun m => -Int.ofNat m)
      else (parseUDigits (a :: t)).map Int.ofNat := by
  unfold pyInt
  rw [hs]

theorem pyInt_digits {cs : PyStr} (hne : cs ≠ []) (h : ∀ c ∈ cs, isDigitCh c = true) :
    pyInt cs = some ((digitsVal cs : Nat) : Int) := by
  cases hcs : cs with
  | nil => exact absurd hcs hne
  | cons a t =>
    subst hcs
    have ha := h a (List.mem_cons_self a t)
    rw [pyInt_cons_eq (pyStrip_eq_self_of_mem (fun c hc => pyIsSpace_of_digit (h c hc)))]
    rw [if_neg (digit_ne_plus ha), if_neg (digit_ne_dash ha)]
    unfold parseUDigits
    have hok : udOk (a :: t) = true := by
      unfold udOk
      simp [ha, udTail_of_digits (fun c hc => h c (List.mem_cons_of_mem a hc))]
    rw [if_pos hok]
    rw [List.filter_eq_self.mpr (fun c hc => by simp [digit_ne_underscore (h c hc)])]
    rfl

theorem pyInt_fmt02 {n : Int} (h : 0 ≤ n) : pyInt (fmt02 n) = some n := by
  rw [pyInt_digits (fmt02_ne_nil_of_nonneg h) (fmt02_digits h)]
  congr 1
  unfold fmt02
  rw [if_neg (by omega)]
  rw [digitsVal_padZero2, digitsVal_natRepr]
  omega

theorem lookup_mem_values {α β : Type} [BEq α] [LawfulBEq α] {l : List (α × β)}
    {k : α} {v : β} (h : l.lookup k = some v) : (k, v) ∈ l := by
  induction l with
  | nil => simp [List.lookup] at h
  | cons p t ih =>
    obtain ⟨k1, v1⟩ := p
    rw [List.lookup] at h
    by_cases hb : (k == k1) = true
    · rw [hb] at h
      simp only [Option.some.injEq] at h
      have hk : k = k1 := eq_of_beq hb
      subst hk
      subst h
      exact List.mem_cons_self _ t
    · rw [Bool.not_eq_true] at hb
      rw [hb] at h
      exact List.mem_cons_of_mem _ (ih h)

theorem monthNumToAbbr_spec {n : Int} {ab : PyStr} (h : monthNumToAbbr n = some ab) :
    ab ≠ [] ∧ (∀ c ∈ ab, pyIsSpace c = false) ∧ (∀ c ∈ ab, c ≠ '-') := by
  have hp := lookup_mem_values h
  fin_cases hp <;> refine ⟨by decide, by decide, by decide⟩

theorem monthsAbbr_key_facts {ab : PyStr} {n : Int} (h : (ab, n) ∈ monthsAbbr) :
    pyCapitalize ab = ab ∧ (∀ c ∈ ab, pyIsSpace c = false) ∧
      (∀ c ∈ ab, c ≠ '-') ∧ ('/' : Char) ∉ ab ∧ ab ≠ [] ∧ 0 ≤ n := by
  fin_cases h <;>
    refine ⟨by decide, by decide, by decide, by decide, by decide, by decide⟩

theorem pyInt_nonneg_of_no_dash {m : PyStr} {n : Int} (hdash : ∀ c ∈ m, c ≠ '-')
    (h : pyInt m = some n) : 0 ≤ n := by
  cases hs : pyStrip m with
  | nil => rw [pyInt_nil_eq hs] at h; simp at h
  | cons a t =>
    rw [pyInt_cons_eq hs] at h
    have hmem : a ∈ m := mem_pyStrip (hs ▸ List.mem_cons_self a t)
    by_cases hp : a = '+'
    · rw [if_pos hp] at h
      obtain ⟨k, _, hk⟩ := Option.map_eq_some'.mp h
      subst hk
      exact Int.ofNat_nonneg k
    · rw [if_neg hp, if_neg (hdash a hmem)] at h
      obtain ⟨k, _, hk⟩ := Option.map_eq_some'.mp h
      subst hk
      exact Int.ofNat_nonneg k

/-! ### Helper lemmas: `format_admedia_stored` -/

theorem format_eq_nil {v : PyStr} (h : pyWords (pyReplaceDash (pyStrip v)) = []) :
    format_admedia_stored v = pyStrip v := by
  unfold format_admedia_stored
  rw [h]

theorem format_eq_one {v y : PyStr} (h : pyWords (pyReplaceDash (pyStrip v)) = [y]) :
    format_admedia_stored v = y ++ ' ' :: (fmt02 0 ++ ' ' :: abbrFor 0 []) := by
  unfold format_admedia_stored
  rw [h]

theorem format_eq_fail {v y m1 : PyStr} {rest : List PyStr}
    (h : pyWords (pyReplaceDash (pyStrip v)) = y :: m1 :: rest)
    (hm : pyInt m1 = none) : format_admedia_stored v = pyStrip v := by
  unfold format_admedia_stored
  rw [h]
  show (match pyInt m1 with
    | none => pyStrip v
    | some n => y ++ ' ' :: (fmt02 n ++ ' ' :: abbrFor n rest)) = pyStrip v
  rw [hm]

theorem format_eq_ok {v y m1 : PyStr} {rest : List PyStr} {n : Int}
    (h : pyWords (pyReplaceDash (pyStrip v)) = y :: m1 :: rest)
    (hm : pyInt m1 = some n) :
    format_admedia_stored v = y ++ ' ' :: (fmt02 n ++ ' ' :: abbrFor n rest) := by
  unfold format_admedia_stored
  rw [h]
  show (match pyInt m1 with
    | none => pyStrip v
    | some k => y ++ ' ' :: (fmt02 k ++ ' ' :: abbrFor k rest)) =
    y ++ ' ' :: (fmt02 n ++ ' ' :: abbrFor n rest)
  rw [hm]

theorem pyStrip_out3 {y m2 ab : PyStr} (hy : y ≠ []) (hab : ab ≠ [])
    (hysp : ∀ c ∈ y, pyIsSpace c = false) (habsp : ∀ c ∈ ab, pyIsSpace c = false) :
    pyStrip (y ++ ' ' :: (m2 ++ ' ' :: ab)) = y ++ ' ' :: (m2 ++ ' ' :: ab) := by
  apply pyStrip_eq_self
  · intro c hc
    rw [head?_append_left hy] at hc
    exact hysp c (mem_of_head? hc)
  · intro c hc
    simp only [List.reverse_append, List.reverse_cons, List.append_assoc] at hc
    rw [head?_append_left (by simp [hab])] at hc
    exact habsp c (List.mem_reverse.mp (mem_of_head? hc))

theorem pyReplaceDash_out3 {y m2 ab : PyStr}
    (hyd : ∀ c ∈ y, c ≠ '-') (hmd : ∀ c ∈ m2, c ≠ '-') (habd : ∀ c ∈ ab, c ≠ '-') :
    pyReplaceDash (y ++ ' ' :: (m2 ++ ' ' :: ab)) = y ++ ' ' :: (m2 ++ ' ' :: ab) := by
  apply pyReplaceDash_eq_self
  intro c hc
  rcases List.mem_append.mp hc with h1 | h1
  · exact hyd c h1
  · rcases List.mem_cons.mp h1 with rfl | h2
    · decide
    · rcases List.mem_append.mp h2 with h3 | h3
      · exact hmd c h3
      · rcases List.mem_cons.mp h3 with rfl | h4
        · decide
        · exact habd c h4

/-- A canonically formatted admedia value re-formats to itself: the heart of
idempotence. -/
theorem format_of_canonical {y ab : PyStr} {n : Int} (hn : 0 ≤ n)
    (hy : y ≠ []) (hysp : ∀ c ∈ y, pyIsSpace c = false) (hyd : ∀ c ∈ y, c ≠ '-')
    (hab : ab ≠ []) (habsp : ∀ c ∈ ab, pyIsSpace c = false)
    (habd : ∀ c ∈ ab, c ≠ '-') :
    format_admedia_stored (y ++ ' ' :: (fmt02 n ++ ' ' :: ab)) =
      y ++ ' ' :: (fmt02 n ++ ' ' :: ab) := by
  have hm2 : fmt02 n ≠ [] := fmt02_ne_nil_of_nonneg hn
  have hm2sp : ∀ c ∈ fmt02 n, pyIsSpace c = false :=
    fun c hc => pyIsSpace_of_digit (fmt02_digits hn c hc)
  have hm2d : ∀ c ∈ fmt02 n, c ≠ '-' :=
    fun c hc => digit_ne_dash (fmt02_digits hn c hc)
  have hwords : pyWords (pyReplaceDash (pyStrip (y ++ ' ' :: (fmt02 n ++ ' ' :: ab)))) =
      y :: fmt02 n :: [ab] := by
    rw [pyStrip_out3 hy hab hysp habsp, pyReplaceDash_out3 hyd hm2d habd,
      pyWords_three hy hm2 hab hysp hm2sp habsp]
  rw [format_eq_ok hwords (pyInt_fmt02 hn)]
  rfl

theorem format_strip (s : PyStr) :
    format_admedia_stored (pyStrip s) = format_admedia_stored s := by
  unfold format_admedia_stored
  rw [pyStrip_idem]

theorem word_facts {s w : PyStr} (h : w ∈ pyWords (pyReplaceDash (pyStrip s))) :
    w ≠ [] ∧ (∀ c ∈ w, pyIsSpace c = false) ∧ (∀ c ∈ w, c ≠ '-') :=
  ⟨mem_pyWords_ne_nil h, mem_pyWords_no_space h,
    fun c hc => pyReplaceDash_no_dash _ c (mem_pyWords_subset h c hc)⟩

theorem abbrFor_facts {n : Int} {rest : List PyStr} (hn : 0 ≤ n)
    (hrest : ∀ a ∈ rest, a ≠ [] ∧ (∀ c ∈ a, pyIsSpace c = false) ∧ (∀ c ∈ a, c ≠ '-')) :
    abbrFor n rest ≠ [] ∧ (∀ c ∈ abbrFor n rest, pyIsSpace c = false) ∧
      (∀ c ∈ abbrFor n rest, c ≠ '-') := by
  cases rest with
  | cons a t => exact hrest a (List.mem_cons_self a t)
  | nil =>
    cases hma : monthNumToAbbr n with
    | some ab =>
      have hsp := monthNumToAbbr_spec hma
      simp only [abbrFor, hma]
      exact hsp
    | none =>
      simp only [abbrFor, hma]
      exact ⟨fmt02_ne_nil_of_nonneg hn,
        fun c hc => pyIsSpace_of_digit (fmt02_digits hn c hc),
        fun c hc => digit_ne_dash (fmt02_digits hn c hc)⟩

theorem pySplitOn_pair {sep : Char} {a b : PyStr} (ha : sep ∉ a) (hb : sep ∉ b) :
    pySplitOn sep (a ++ sep :: b) = [a, b] := by
  unfold pySplitOn
  rw [List.splitOnP_first _ _
    (fun x hx => by simp only [beq_iff_eq]; exact fun e => ha (e ▸ hx)) sep (by simp) b]
  rw [List.splitOnP_eq_single _ _
    (fun x hx => by simp only [beq_iff_eq]; exact fun e => hb (e ▸ hx))]

theorem slash_not_digit {c : Char} (h : isDigitCh c = true) : c ≠ '/' :=
  char_ne_of_toNat (by have := toNat_of_isDigitCh h; intro e; rw [e] at this; exact absurd this (by decide))

/-- `admedia_label_to_stored` on a well-formed label `Abbr ++ "/" ++ year`
whose abbreviation is found in the table. -/
theorem label_to_stored_canonical {ab y : PyStr} {n : Int}
    (h1 : monthsAbbrLookup ab = some n) (h2 : pyCapitalize ab = ab)
    (h3 : ∀ c ∈ ab, pyIsSpace c = false) (h4 : '/' ∉ ab) (_h5 : ab ≠ [])
    (_hy : y ≠ []) (hyd : ∀ c ∈ y, isDigitCh c = true) :
    admedia_label_to_stored (ab ++ '/' :: y) = y ++ ' ' :: (fmt02 n ++ ' ' :: ab) := by
  have hyns : ∀ c ∈ y, pyIsSpace c = false := fun c hc => pyIsSpace_of_digit (hyd c hc)
  have hslash : ('/' : Char) ∉ y := fun hc => slash_not_digit (hyd '/' hc) rfl
  have hstrip : pyStrip (ab ++ '/' :: y) = ab ++ '/' :: y := by
    apply pyStrip_eq_self_of_mem
    intro c hc
    rcases List.mem_append.mp hc with h | h
    · exact h3 c h
    · rcases List.mem_cons.mp h with rfl | h
      · decide
      · exact hyns c h
  simp only [admedia_label_to_stored]
  rw [hstrip]
  rw [if_pos (List.mem_append_right ab (List.mem_cons_self '/' y))]
  rw [pySplitOn_pair h4 hslash]
  show (match monthsAbbrLookup (pyCapitalize (pyStrip ab)) with
    | some k => pyStrip y ++ ' ' :: (fmt02 k ++ ' ' :: pyCapitalize (pyStrip ab))
    | none => format_admedia_stored (ab ++ '/' :: y)) = _
  rw [pyStrip_eq_self_of_mem h3, h2, h1, pyStrip_eq_self_of_mem hyns]

/-- `admedia_stored_to_label` when formatting yields three-or-more parts whose
month part parses. -/
theorem stored_to_label_eq_ok {v year p1 a : PyStr} {t2 : List PyStr} {n : Int}
    (h : pyWords (format_admedia_stored v) = year :: p1 :: (a :: t2))
    (hp : pyInt p1 = some n) :
    admedia_stored_to_label v = a ++ '/' :: year := by
  simp only [admedia_stored_to_label]
  rw [h]
  show (match pyInt p1 with
    | some k =>
      (match (a :: t2 : List PyStr) with
        | b :: _ => b
        | [] => (monthNumToAbbr k).getD p1) ++ '/' :: year
    | none => pyStrip v) = a ++ '/' :: year
  rw [hp]

/-- `admedia_stored_to_label` of a canonical stored value recovers
`Abbr ++ "/" ++ year`. -/
theorem stored_to_label_canonical {y ab : PyStr} {n : Int} (hn : 0 ≤ n)
    (hy : y ≠ []) (hysp : ∀ c ∈ y, pyIsSpace c = false) (hyd : ∀ c ∈ y, c ≠ '-')
    (hab : ab ≠ []) (habsp : ∀ c ∈ ab, pyIsSpace c = false)
    (habd : ∀ c ∈ ab, c ≠ '-') :
    admedia_stored_to_label (y ++ ' ' :: (fmt02 n ++ ' ' :: ab)) = ab ++ '/' :: y := by
  have hm2 : fmt02 n ≠ [] := fmt02_ne_nil_of_nonneg hn
  have hm2sp : ∀ c ∈ fmt02 n, pyIsSpace c = false :=
    fun c hc => pyIsSpace_of_digit (fmt02_digits hn c hc)
  refine @stored_to_label_eq_ok _ y (fmt02 n) ab [] n ?_ (pyInt_fmt02 hn)
  rw [format_of_canonical hn hy hysp hyd hab habsp habd,
    pyWords_three hy hm2 hab hysp hm2sp habsp]

/-- Round trip on a well-formed admedia label with digit year. -/
theorem roundtrip_canonical {ab y : PyStr} {n : Int}
    (h1 : monthsAbbrLookup ab = some n) (hn : 0 ≤ n) (h2 : pyCapitalize ab = ab)
    (h3 : ∀ c ∈ ab, pyIsSpace c = false) (h3d : ∀ c ∈ ab, c ≠ '-')
    (h4 : '/' ∉ ab) (h5 : ab ≠ [])
    (hy : y ≠ []) (hyd : ∀ c ∈ y, isDigitCh c = true) :
    admedia_stored_to_label (admedia_label_to_stored (ab ++ '/' :: y)) =
      ab ++ '/' :: y := by
  rw [label_to_stored_canonical h1 h2 h3 h4 h5 hy hyd]
  exact stored_to_label_canonical hn hy
    (fun c hc => pyIsSpace_of_digit (hyd c hc))
    (fun c hc => digit_ne_dash (hyd c hc)) h5 h3 h3d

/-- General idempotence of `format_admedia_stored`, proved once and reused by
the claim-level statement. -/
theorem format_admedia_stored_idem_aux (s : PyStr) :
    format_admedia_stored (format_admedia_stored s) = format_admedia_stored s := by
  cases hw : pyWords (pyReplaceDash (pyStrip s)) with
  | nil =>
    rw [format_eq_nil hw, format_strip, format_eq_nil hw]
  | cons y t =>
    have hyf : y ≠ [] ∧ (∀ c ∈ y, pyIsSpace c = false) ∧ (∀ c ∈ y, c ≠ '-') :=
      word_facts (by rw [hw]; exact List.mem_cons_self y t)
    cases t with
    | nil =>
      rw [format_eq_one hw]
      exact format_of_canonical (by norm_num) hyf.1 hyf.2.1 hyf.2.2
        (by decide) (by decide) (by decide)
    | cons m1 rest =>
      have hm1f : m1 ≠ [] ∧ (∀ c ∈ m1, pyIsSpace c = false) ∧ (∀ c ∈ m1, c ≠ '-') :=
        word_facts (by rw [hw]; exact List.mem_cons_of_mem y (List.mem_cons_self m1 rest))
      cases hm : pyInt m1 with
      | none =>
        rw [format_eq_fail hw hm, format_strip]
        exact format_eq_fail hw hm
      | some n =>
        have hn : 0 ≤ n := pyInt_nonneg_of_no_dash hm1f.2.2 hm
        have habf := @abbrFor_facts n rest hn
          (fun a ha => word_facts
            (by rw [hw]; exact List.mem_cons_of_mem y (List.mem_cons_of_mem m1 ha)))
        rw [format_eq_ok hw hm]
        exact format_of_canonical hn hyf.1 hyf.2.1 hyf.2.2 habf.1 habf.2.1 habf.2.2

/-! ### Helper lemmas: the two label parsers -/

theorem parse_instar_eq_pair {s m y : PyStr} (hsp : pySplitOn '/' s = [m, y]) :
    parse_instar_label s =
      (match monthsFullLookup (pyCapitalize (pyStrip m)) with
       | none => (9999, 99)
       | some idx =>
         match pyInt (pyStrip y) with
         | some yr => (yr, idx)
         | none => (9999, 99)) := by
  unfold parse_instar_label
  rw [hsp]

theorem parse_instar_eq_other {s : PyStr}
    (hsp : ∀ m y : PyStr, pySplitOn '/' s ≠ [m, y]) :
    parse_instar_label s = (9999, 99) := by
  unfold parse_instar_label
  cases h : pySplitOn '/' s with
  | nil => rfl
  | cons a t =>
    cases t with
    | nil => rfl
    | cons b t2 =>
      cases t2 with
      | nil => exact absurd h (hsp a b)
      | cons c t3 => rfl

theorem validInstarB_pair {s m y : PyStr} (hsp : pySplitOn '/' s = [m, y]) :
    validInstarB s =
      ((monthsFullLookup (pyCapitalize (pyStrip m))).isSome
        && (pyInt (pyStrip y)).isSome) := by
  unfold validInstarB
  rw [hsp]

theorem parse_instar_sentinel {s : PyStr} (h : validInstarB s = false) :
    parse_instar_label s = (9999, 99) := by
  cases hsp : pySplitOn '/' s with
  | nil => exact parse_instar_eq_other (by rw [hsp]; intro m y; simp)
  | cons a t =>
    cases t with
    | nil => exact parse_instar_eq_other (by rw [hsp]; intro m y; simp)
    | cons b t2 =>
      cases t2 with
      | cons c t3 => exact parse_instar_eq_other (by rw [hsp]; intro m y; simp)
      | nil =>
        rw [parse_instar_eq_pair hsp]
        rw [validInstarB_pair hsp] at h
        cases hl : monthsFullLookup (pyCapitalize (pyStrip a)) with
        | none => rfl
        | some idx =>
          cases hy : pyInt (pyStrip b) with
          | none => rfl
          | some yr =>
            rw [hl, hy] at h
            simp at h

theorem monthsFullLookup_of_get {k : Nat} {name : PyStr}
    (h : monthsFull.get? k = some name) :
    monthsFullLookup name = some ((k : Int) + 1) := by
  have hk : k < 12 := by
    by_contra hk
    rw [List.get?_eq_none.mpr (by simp only [monthsFull]; simp; omega)] at h
    exact absurd h (by simp)
  interval_cases k <;> (have h2 := Option.some.inj h; subst h2; decide)

/-! ### Helper lemmas: `parse_admedia_stored` -/

theorem parse_admedia_eq {v p0 p1 : PyStr} {t : List PyStr}
    (h : pyWords (format_admedia_stored v) = p0 :: p1 :: t) :
    parse_admedia_stored v =
      (match pyInt p0, pyInt p1 with
       | some a, some b => (a, b)
       | _, _ => (9999, 99)) := by
  unfold parse_admedia_stored
  rw [h]

theorem parse_admedia_short {v : PyStr}
    (h : ∀ (p0 p1 : PyStr) (t : List PyStr),
      pyWords (format_admedia_stored v) ≠ p0 :: p1 :: t) :
    parse_admedia_stored v = (9999, 99) := by
  unfold parse_admedia_stored
  cases hw : pyWords (format_admedia_stored v) with
  | nil => rfl
  | cons a t =>
    cases t with
    | nil => rfl
    | cons b t2 => exact absurd hw (h a b t2)

theorem admediaParseableB_pair {v p0 p1 : PyStr} {t : List PyStr}
    (h : pyWords (format_admedia_stored v) = p0 :: p1 :: t) :
    admediaParseableB v = ((pyInt p0).isSome && (pyInt p1).isSome) := by
  unfold admediaParseableB
  rw [h]

theorem parse_admedia_sentinel {s : PyStr} (h : admediaParseableB s = false) :
    parse_admedia_stored s = (9999, 99) := by
  cases hw : pyWords (format_admedia_stored s) with
  | nil => exact parse_admedia_short (by rw [hw]; intro p0 p1 t; simp)
  | cons a t =>
    cases t with
    | nil => exact parse_admedia_short (by rw [hw]; intro p0 p1 t; simp)
    | cons b t2 =>
      rw [parse_admedia_eq hw]
      rw [admediaParseableB_pair hw] at h
      cases h0 : pyInt a with
      | none => rfl
      | some x =>
        cases h1 : pyInt b with
        | none => rfl
        | some y =>
          rw [h0, h1] at h
          simp at h

/-! ### Helper lemmas: the sort -/

theorem pairLeB_total (x y : Int × Int) : pairLeB x y = true ∨ pairLeB y x = true := by
  simp only [pairLeB, Bool.or_eq_true, Bool.and_eq_true, decide_eq_true_eq]
  omega

theorem pairLeB_trans {x y z : Int × Int} (h1 : pairLeB x y = true)
    (h2 : pairLeB y z = true) : pairLeB x z = true := by
  simp only [pairLeB, Bool.or_eq_true, Bool.and_eq_true, decide_eq_true_eq] at h1 h2 ⊢
  omega

theorem mem_stableInsert {le : α → α → Bool} {a y : α} :
    ∀ {l : List α}, y ∈ stableInsert le a l → y = a ∨ y ∈ l := by
  intro l
  induction l with
  | nil =>
    intro h
    unfold stableInsert at h
    exact Or.inl (List.mem_singleton.mp h)
  | cons b t ih =>
    intro h
    unfold stableInsert at h
    by_cases hba : le b a = true
    · rw [if_pos hba] at h
      rcases List.mem_cons.mp h with rfl | h2
      · exact Or.inr (List.mem_cons_self y t)
      · rcases ih h2 with rfl | h3
        · exact Or.inl rfl
        · exact Or.inr (List.mem_cons_of_mem b h3)
    · rw [if_neg hba] at h
      rcases List.mem_cons.mp h with rfl | h2
      · exact Or.inl rfl
      · exact Or.inr h2

theorem stableInsert_pairwise {le : α → α → Bool}
    (htot : ∀ x y, le x y = true ∨ le y x = true)
    (htr : ∀ x y z, le x y = true → le y z = true → le x z = true) (a : α) :
    ∀ {l : List α}, l.Pairwise (fun x y => le x y = true) →
      (stableInsert le a l).Pairwise (fun x y => le x y = true) := by
  intro l
  induction l with
  | nil =>
    intro _
    exact List.pairwise_singleton _ a
  | cons b t ih =>
    intro h
    rw [List.pairwise_cons] at h
    obtain ⟨hb, ht⟩ := h
    unfold stableInsert
    by_cases hba : le b a = true
    · rw [if_pos hba]
      rw [List.pairwise_cons]
      refine ⟨fun y hy => ?_, ih ht⟩
      rcases mem_stableInsert hy with rfl | hmem
      · exact hba
      · exact hb y hmem
    · rw [if_neg hba]
      have hab : le a b = true := by
        rcases htot a b with h1 | h1
        · exact h1
        · exact absurd h1 hba
      rw [List.pairwise_cons]
      refine ⟨fun y hy => ?_, List.pairwise_cons.mpr ⟨hb, ht⟩⟩
      rcases List.mem_cons.mp hy with rfl | hmem
      · exact hab
      · exact htr a b y hab (hb y hmem)

theorem pySorted_pairwise (le : α → α → Bool)
    (htot : ∀ x y, le x y = true ∨ le y x = true)
    (htr : ∀ x y z, le x y = true → le y z = true → le x z = true) (l : List α) :
    (pySorted le l).Pairwise (fun x y => le x y = true) := by
  suffices h : ∀ acc : List α, acc.Pairwise (fun x y => le x y = true) →
      (List.foldl (fun acc x => stableInsert le x acc) acc l).Pairwise
        (fun x y => le x y = true) from h [] List.Pairwise.nil
  induction l with
  | nil => intro acc h; exact h
  | cons a t ih =>
    intro acc h
    rw [List.foldl_cons]
    exact ih _ (stableInsert_pairwise htot htr a h)

/-! ### Helper lemmas: service layer -/

theorem build_table_config_ok {settings : Settings} {pid : Option PyStr}
    {ds tb mc p : PyStr} (hp : resolve_project_id settings pid = .ok p) :
    build_table_config settings pid ds tb mc = .ok ⟨p, ds, tb, mc⟩ := by
  unfold build_table_config
  rw [hp]

theorem pySplitOn_triple {sep : Char} {a b c : PyStr}
    (ha : sep ∉ a) (hb : sep ∉ b) (hc : sep ∉ c) :
    pySplitOn sep (a ++ sep :: (b ++ sep :: c)) = [a, b, c] := by
  unfold pySplitOn
  rw [List.splitOnP_first _ _
    (fun x hx => by simp only [beq_iff_eq]; exact fun e => ha (e ▸ hx)) sep (by simp) _]
  rw [List.splitOnP_first _ _
    (fun x hx => by simp only [beq_iff_eq]; exact fun e => hb (e ▸ hx)) sep (by simp) _]
  rw [List.splitOnP_eq_single _ _
    (fun x hx => by simp only [beq_iff_eq]; exact fun e => hc (e ▸ hx))]

theorem projChar_no_space {c : Char} (h : projChar c = true) : pyIsSpace c = false := by
  by_contra hsp
  rw [Bool.not_eq_false] at hsp
  simp only [pyIsSpace, Bool.or_eq_true, decide_eq_true_eq] at hsp
  rcases hsp with ((((rfl | rfl) | rfl) | rfl) | rfl) | rfl <;> exact absurd h (by decide)

theorem datasetChar_no_space {c : Char} (h : datasetChar c = true) :
    pyIsSpace c = false := by
  by_contra hsp
  rw [Bool.not_eq_false] at hsp
  simp only [pyIsSpace, Bool.or_eq_true, decide_eq_true_eq] at hsp
  rcases hsp with ((((rfl | rfl) | rfl) | rfl) | rfl) | rfl <;> exact absurd h (by decide)

theorem tableChar_no_space {c : Char} (h : tableChar c = true) :
    pyIsSpace c = false := by
  by_contra hsp
  rw [Bool.not_eq_false] at hsp
  simp only [pyIsSpace, Bool.or_eq_true, decide_eq_true_eq] at hsp
  rcases hsp with ((((rfl | rfl) | rfl) | rfl) | rfl) | rfl <;> exact absurd h (by decide)

theorem validate_ok_of_match {t : PyStr} (h : tablePatternMatch (pyStrip t) = true) :
    validate_table_reference t = .ok (pyStrip t) := by
  simp only [validate_table_reference]
  rw [if_pos h]

theorem validate_err_of_not_match {t : PyStr}
    (h : tablePatternMatch (pyStrip t) = false) :
    validate_table_reference t = .error tableRefErr := by
  simp only [validate_table_reference]
  rw [if_neg (by simp [h])]

theorem append_rows_invalid_src {clientRes : Except ServiceError Unit}
    {oracle : DmlOracle} {src dst mc : PyStr} {months : Option (List PyStr)}
    {dt : PyStr} (hsrc : tablePatternMatch (pyStrip src) = false) :
    append_rows clientRes oracle src dst mc months dt = (.error tableRefErr, []) := by
  unfold append_rows
  rw [validate_err_of_not_match hsrc]

theorem append_rows_invalid_dst {clientRes : Except ServiceError Unit}
    {oracle : DmlOracle} {src dst mc : PyStr} {months : Option (List PyStr)}
    {dt : PyStr} (hdst : tablePatternMatch (pyStrip dst) = false) :
    append_rows clientRes oracle src dst mc months dt = (.error tableRefErr, []) := by
  by_cases hsrc : tablePatternMatch (pyStrip src) = true
  · unfold append_rows
    rw [validate_ok_of_match hsrc, validate_err_of_not_match hdst]
  · exact append_rows_invalid_src (Bool.eq_false_iff.mpr hsrc)

theorem list_columns_ok {schemaOracle : SchemaOracle} {table : PyStr}
    {cols : List PyStr} (hpat : tablePatternMatch (pyStrip table) = true)
    (hso : schemaOracle (pyStrip table) = .ok cols) :
    list_columns (.ok ()) schemaOracle table =
      (.ok cols, [StoreCall.getTable (pyStrip table)]) := by
  unfold list_columns
  rw [validate_ok_of_match hpat]
  show (match schemaOracle (pyStrip table) with
    | Except.ok cols2 => (Except.ok cols2, [StoreCall.getTable (pyStrip table)])
    | Except.error m =>
      (Except.error (schemaErrMsg (pyStrip table) m),
        [StoreCall.getTable (pyStrip table)])) = _
  rw [hso]

/-! ### Claim theorems -/

/-- C1, counterexample: on `"2024 ab"`, part 1 is present but fails to parse
as an integer; `format_admedia_stored` returns the trimmed original
`"2024 ab"` — a two-token string whose second token is `"ab"`, not the
month-zero `"{year} 00 {abbr}"` output the claim requires. -/
theorem C1_counterexample :
    format_admedia_stored (str "2024 ab") = str "2024 ab" ∧
    pyWords (format_admedia_stored (str "2024 ab")) = [str "2024", str "ab"] ∧
    (str "ab" : PyStr) ≠ str "00" := by
  refine ⟨by decide, by decide, by decide⟩

/-- C1 amended: for every input with at least one whitespace/dash-separated
part, `format_admedia_stored` returns `"{year} {month:02d} {abbr}"` with year
as part 0 kept as-is; the month number is part 1 when it is present and
parses as an integer, and defaults to `0` only when part 1 is absent; when
part 1 is present but fails to parse as an integer, the function instead
returns the trimmed original input. -/
theorem C1_format_admedia_stored_amended (s y : PyStr) (rest : List PyStr)
    (h : pyWords (pyReplaceDash (pyStrip s)) = y :: rest) :
    (rest = [] →
      format_admedia_stored s = y ++ ' ' :: (fmt02 0 ++ ' ' :: abbrFor 0 [])) ∧
    (∀ m1 : PyStr, ∀ rest2 : List PyStr, rest = m1 :: rest2 → pyInt m1 = none →
      format_admedia_stored s = pyStrip s) ∧
    (∀ m1 : PyStr, ∀ rest2 : List PyStr, ∀ n : Int, rest = m1 :: rest2 →
      pyInt m1 = some n →
      format_admedia_stored s = y ++ ' ' :: (fmt02 n ++ ' ' :: abbrFor n rest2)) := by
  refine ⟨?_, ?_, ?_⟩
  · intro hr
    subst hr
    exact format_eq_one h
  · intro m1 rest2 hr hm
    subst hr
    exact format_eq_fail h hm
  · intro m1 rest2 n hr hm
    subst hr
    exact format_eq_ok h hm

/-- Witness for C1's amended theorem at the concrete input `"2024-3"`. -/
theorem C1_witness :
    pyWords (pyReplaceDash (pyStrip (str "2024-3"))) = [str "2024", str "3"] ∧
    pyInt (str "3") = some 3 ∧
    format_admedia_stored (str "2024-3") = str "2024 03 Mar" := by
  refine ⟨by decide, by decide, ?_⟩
  have h := (C1_format_admedia_stored_amended (str "2024-3") (str "2024") [str "3"]
    (by decide)).2.2 (str "3") [] 3 rfl (by decide)
  rw [h]
  decide

/-- C2: `admedia_label_to_stored("Mar/2024") = "2024 03 Mar"`, and for every
well-formed admedia label `Abbr ++ "/" ++ year` whose abbreviation is one of
the twelve table abbreviations and whose year is a nonempty digit string, the
stored/label round trip is the identity. -/
theorem C2_admedia_label_roundtrip :
    admedia_label_to_stored (str "Mar/2024") = str "2024 03 Mar" ∧
    ∀ ab y : PyStr, (monthsAbbrLookup ab).isSome = true → y ≠ [] →
      (∀ c ∈ y, isDigitCh c = true) →
      admedia_stored_to_label (admedia_label_to_stored (ab ++ '/' :: y)) =
        ab ++ '/' :: y := by
  refine ⟨by decide, ?_⟩
  intro ab y hsome hy hyd
  obtain ⟨n, hn⟩ := Option.isSome_iff_exists.mp hsome
  have hf := monthsAbbr_key_facts (lookup_mem_values hn)
  exact roundtrip_canonical hn hf.2.2.2.2.2 hf.1 hf.2.1 hf.2.2.1 hf.2.2.2.1
    hf.2.2.2.2.1 hy hyd

/-- Witness for C2 at the concrete label `"Abr/2025"`. -/
theorem C2_witness :
    (monthsAbbrLookup (str "Abr")).isSome = true ∧
    (str "2025" : PyStr) ≠ [] ∧ (∀ c ∈ (str "2025" : PyStr), isDigitCh c = true) ∧
    admedia_stored_to_label (admedia_label_to_stored (str "Abr" ++ '/' :: str "2025")) =
      str "Abr" ++ '/' :: str "2025" :=
  ⟨by decide, by decide, by decide,
    C2_admedia_label_roundtrip.2 (str "Abr") (str "2025") (by decide) (by decide)
      (by decide)⟩

/-- C3: for every valid instar label — month part whose trimmed
capitalization is the k-th full Spanish month name, a single `/`, and an
integer year — `parse_instar_label` returns `(year, k + 1)`; for every string
not of that shape it returns the sentinel `(9999, 99)`. -/
theorem C3_parse_instar_label_spec :
    (∀ (m y : PyStr) (k : Nat) (n : Int),
      ('/' : Char) ∉ m → ('/' : Char) ∉ y →
      monthsFull.get? k = some (pyCapitalize (pyStrip m)) →
      pyInt (pyStrip y) = some n →
      parse_instar_label (m ++ '/' :: y) = (n, (k : Int) + 1)) ∧
    (∀ s : PyStr, validInstarB s = false → parse_instar_label s = (9999, 99)) := by
  constructor
  · intro m y k n hm hy hget hint
    rw [parse_instar_eq_pair (pySplitOn_pair hm hy)]
    rw [monthsFullLookup_of_get hget, hint]
  · exact fun s h => parse_instar_sentinel h

/-- Witness for C3 at `"Marzo/2024"` (valid) and `"garbage"` (invalid). -/
theorem C3_witness :
    parse_instar_label (str "Marzo" ++ '/' :: str "2024") = (2024, 3) ∧
    parse_instar_label (str "garbage") = (9999, 99) := by
  constructor
  · have h := C3_parse_instar_label_spec.1 (str "Marzo") (str "2024") 2 2024
      (by decide) (by decide) (by decide) (by decide)
    rw [h]
    decide
  · exact C3_parse_instar_label_spec.2 (str "garbage") (by decide)

/-- C4: `normalize_admedia_months` trims each value, skips empties, converts
values containing `/` via `admedia_label_to_stored` and all others via
`format_admedia_stored`, then dedupes the final converted values preserving
first-seen order; on `["Mar/2024", "2024 03 Mar", "mar/2024"]` it returns
exactly `["2024 03 Mar"]`. -/
theorem C4_normalize_admedia_months_spec :
    (∀ ms : List PyStr,
      normalize_admedia_months ms = dedupe_preserve_order
        (((ms.map pyStrip).filter (fun r => !r.isEmpty)).map
          (fun r => if '/' ∈ r then admedia_label_to_stored r
            else format_admedia_stored r))) ∧
    normalize_admedia_months [str "Mar/2024", str "2024 03 Mar", str "mar/2024"] =
      [str "2024 03 Mar"] := by
  constructor
  · intro ms
    unfold normalize_admedia_months
    congr 1
    induction ms with
    | nil => rfl
    | cons v t ih =>
      by_cases he : (pyStrip v).isEmpty = true
      · simp [normAdmediaGo, he, ih]
      · simp [normAdmediaGo, he, ih]
  · decide

/-- C5, counterexample: `"garbage"` carries the sentinel key `(9999, 99)`
while `"Marzo/10000"` parses to the larger key `(10000, 3)`, so the sorted
output places the sentinel-keyed value before a non-sentinel-keyed one,
refuting "every sentinel-keyed value appears after every value with a
non-sentinel key". -/
theorem C5_counterexample :
    sort_instar_months [str "garbage", str "Marzo/10000"] =
      [str "garbage", str "Marzo/10000"] ∧
    parse_instar_label (str "garbage") = (9999, 99) ∧
    parse_instar_label (str "Marzo/10000") = (10000, 3) ∧
    ((10000 : Int), (3 : Int)) ≠ ((9999 : Int), (99 : Int)) := by
  refine ⟨by decide, by decide, by decide, by decide⟩

/-- C5 amended: every unparseable month value maps to the sentinel key
`(9999, 99)`, and in the outputs of `sort_instar_months` and
`sort_admedia_months` every sentinel-keyed value is followed only by values
whose key is at least the sentinel — equivalently, every value with a key
strictly below the sentinel appears before every sentinel-keyed value.
(Values whose keys exceed the sentinel, e.g. year 10000, may follow it.) -/
theorem C5_sentinel_sorts_after_smaller_keys :
    (∀ s : PyStr, validInstarB s = false → parse_instar_label s = (9999, 99)) ∧
    (∀ s : PyStr, admediaParseableB s = false → parse_admedia_stored s = (9999, 99)) ∧
    (∀ ms : List PyStr, (sort_instar_months ms).Pairwise (fun a b =>
      parse_instar_label a = (9999, 99) →
        pairLeB (9999, 99) (parse_instar_label b) = true)) ∧
    (∀ ms : List PyStr, (sort_admedia_months ms).Pairwise (fun a b =>
      parse_admedia_stored a = (9999, 99) →
        pairLeB (9999, 99) (parse_admedia_stored b) = true)) := by
  refine ⟨fun s h => parse_instar_sentinel h, fun s h => parse_admedia_sentinel h,
    ?_, ?_⟩
  · intro ms
    have hp := pySorted_pairwise
      (fun a b => pairLeB (parse_instar_label a) (parse_instar_label b))
      (fun x y => pairLeB_total _ _) (fun x y z => pairLeB_trans)
      (dedupe_preserve_order ms)
    exact List.Pairwise.imp (fun hle hsent => hsent ▸ hle) hp
  · intro ms
    have hp := pySorted_pairwise
      (fun a b => pairLeB (parse_admedia_stored a) (parse_admedia_stored b))
      (fun x y => pairLeB_total _ _) (fun x y z => pairLeB_trans)
      (dedupe_preserve_order (ms.map format_admedia_stored))
    exact List.Pairwise.imp (fun hle hsent => hsent ▸ hle) hp

/-- Witness for C5's amended theorem: concrete unparseable values map to the
sentinel key. -/
theorem C5_witness :
    parse_instar_label (str "garbagE") = (9999, 99) ∧
    parse_admedia_stored (str "x y") = (9999, 99) :=
  ⟨C5_sentinel_sorts_after_smaller_keys.1 (str "garbagE") (by decide),
   C5_sentinel_sorts_after_smaller_keys.2.1 (str "x y") (by decide)⟩

/-- C6: when the normalized month set is empty (and the project id resolves,
so building the table config does not fail first), both delete operations
return 0 affected rows with an empty store-call trace — no call reaches the
Table Store, for any client state and any oracle. -/
theorem C6_delete_empty_normalized_no_store_call (settings : Settings)
    (clientRes : Except ServiceError Unit) (oracle : DmlOracle)
    (months : List PyStr) :
    (normalize_instar_months months = [] →
      (∃ p, resolve_project_id settings settings.instar_project_id = .ok p) →
      delete_instar_months settings clientRes oracle months = (.ok 0, [])) ∧
    (normalize_admedia_months months = [] →
      (∃ p, resolve_project_id settings settings.admedia_project_id = .ok p) →
      delete_admedia_months settings clientRes oracle months = (.ok 0, [])) := by
  constructor
  · intro hnorm hres
    obtain ⟨p, hp⟩ := hres
    unfold delete_instar_months
    rw [build_table_config_ok hp, hnorm]
    rfl
  · intro hnorm hres
    obtain ⟨p, hp⟩ := hres
    unfold delete_admedia_months
    rw [build_table_config_ok hp, hnorm]
    rfl

/-- Witness for C6: a whitespace-only request normalizes to the empty set and
deletes nothing, even with an unusable client and a failing oracle. -/
theorem C6_witness :
    normalize_instar_months [str "  "] = [] ∧
    delete_instar_months
      ⟨some (str "proj"), none, str "bayer", str "instar_historico", str "Mes_Anio",
        none, str "bayer", str "admedia_historico", str "Mes"⟩
      (.error (str "client unavailable")) (fun _ => .error (str "api down"))
      [str "  "] = (.ok 0, []) := by
  refine ⟨by decide, ?_⟩
  exact (C6_delete_empty_normalized_no_store_call _ _ _ _).1 (by decide)
    ⟨str "proj", rfl⟩

/-- C7, counterexample: `"proj_1.ds.tbl"` consists of three nonempty
dot-separated segments using only alphanumeric/`_`/`-`/`$` characters — it
matches the claim's flat reading of the pattern — yet the code's validator
rejects it, because `_` is not allowed in the project segment. -/
theorem C7_counterexample :
    claimTablePattern (str "proj_1.ds.tbl") = true ∧
    validate_table_reference (str "proj_1.ds.tbl") = .error tableRefErr :=
  ⟨by decide, rfl⟩

/-- C7 amended: the validator accepts exactly `project.dataset.table` with
per-segment classes — project over alphanumeric/`-`, dataset over
alphanumeric/`_`, table over alphanumeric/`_`/`$` — raising the configuration
error for anything else; it accepts `"proj-1.ds_2.tbl$20240101"` and rejects
`"proj 1.ds.tbl"` and `"proj;drop.ds.tbl"`; and `append_rows` raises that
error (before any store call) when either table reference fails the
pattern. -/
theorem C7_validate_table_reference_amended :
    (∀ a b c : PyStr, a ≠ [] → b ≠ [] → c ≠ [] →
      (∀ x ∈ a, projChar x = true) → (∀ x ∈ b, datasetChar x = true) →
      (∀ x ∈ c, tableChar x = true) →
      validate_table_reference (a ++ '.' :: (b ++ '.' :: c)) =
        .ok (a ++ '.' :: (b ++ '.' :: c))) ∧
    (∀ t : PyStr, tablePatternMatch (pyStrip t) = false →
      validate_table_reference t = .error tableRefErr) ∧
    validate_table_reference (str "proj-1.ds_2.tbl$20240101") =
      .ok (str "proj-1.ds_2.tbl$20240101") ∧
    validate_table_reference (str "proj 1.ds.tbl") = .error tableRefErr ∧
    validate_table_reference (str "proj;drop.ds.tbl") = .error tableRefErr ∧
    (∀ (clientRes : Except ServiceError Unit) (oracle : DmlOracle)
      (src dst mc : PyStr) (months : Option (List PyStr)) (dt : PyStr),
      tablePatternMatch (pyStrip src) = false →
      append_rows clientRes oracle src dst mc months dt =
        (.error tableRefErr, [])) ∧
    (∀ (clientRes : Except ServiceError Unit) (oracle : DmlOracle)
      (src dst mc : PyStr) (months : Option (List PyStr)) (dt : PyStr),
      tablePatternMatch (pyStrip dst) = false →
      append_rows clientRes oracle src dst mc months dt =
        (.error tableRefErr, [])) := by
  refine ⟨?_, fun t h => validate_err_of_not_match h, rfl, rfl, rfl,
    fun _ _ _ _ _ _ _ h => append_rows_invalid_src h,
    fun _ _ _ _ _ _ _ h => append_rows_invalid_dst h⟩
  intro a b c ha hb hc hpa hpb hpc
  have hstrip : pyStrip (a ++ '.' :: (b ++ '.' :: c)) = a ++ '.' :: (b ++ '.' :: c) := by
    apply pyStrip_eq_self_of_mem
    intro x hx
    rcases List.mem_append.mp hx with h1 | h1
    · exact projChar_no_space (hpa x h1)
    · rcases List.mem_cons.mp h1 with rfl | h2
      · decide
      · rcases List.mem_append.mp h2 with h3 | h3
        · exact datasetChar_no_space (hpb x h3)
        · rcases List.mem_cons.mp h3 with rfl | h4
          · decide
          · exact tableChar_no_space (hpc x h4)
  have hmatch : tablePatternMatch (a ++ '.' :: (b ++ '.' :: c)) = true := by
    unfold tablePatternMatch
    rw [pySplitOn_triple (fun hd => absurd (hpa _ hd) (by decide))
      (fun hd => absurd (hpb _ hd) (by decide))
      (fun hd => absurd (hpc _ hd) (by decide))]
    simp [isEmpty_false_of_ne_nil ha, isEmpty_false_of_ne_nil hb,
      isEmpty_false_of_ne_nil hc, List.all_eq_true.mpr hpa,
      List.all_eq_true.mpr hpb, List.all_eq_true.mpr hpc]
  simp only [validate_table_reference]
  rw [hstrip, if_pos hmatch]

/-- Witness for C7's amended theorem at concrete references. -/
theorem C7_witness :
    validate_table_reference (str "p1" ++ '.' :: (str "d2" ++ '.' :: str "t3")) =
      .ok (str "p1" ++ '.' :: (str "d2" ++ '.' :: str "t3")) ∧
    validate_table_reference (str "nodots") = .error tableRefErr ∧
    append_rows (.ok ()) (fun _ => .ok (some 5)) (str "bad src") (str "p.d.t")
      (str "m") none (str "instar") = (.error tableRefErr, []) :=
  ⟨C7_validate_table_reference_amended.1 (str "p1") (str "d2") (str "t3")
      (by decide) (by decide) (by decide) (by decide) (by decide) (by decide),
    C7_validate_table_reference_amended.2.1 (str "nodots") (by decide),
    C7_validate_table_reference_amended.2.2.2.2.2.1 _ _ (str "bad src")
      (str "p.d.t") (str "m") none (str "instar") (by decide)⟩

/-- C8: on both exit paths of the post-load segment of `import_instar` —
merge success and merge failure — the trace of store calls ends with the
`delete_table` of the temporary table, issued before the operation returns;
in particular the cleanup call is always in the trace, for every client
state, oracle outcome, and delete-call outcome. -/
theorem C8_import_temp_table_cleanup (clientRes : Except ServiceError Unit)
    (oracle : DmlOracle) (dres : Except PyStr Unit) (config : TableConfig)
    (temp : PyStr) :
    (import_merge_cleanup clientRes oracle dres config temp).2 =
      (append_rows clientRes oracle temp config.fq_table config.month_column
        (some []) (str "instar")).2 ++ [StoreCall.deleteTable temp] ∧
    StoreCall.deleteTable temp ∈
      (import_merge_cleanup clientRes oracle dres config temp).2 := by
  have h1 : (import_merge_cleanup clientRes oracle dres config temp).2 =
      (append_rows clientRes oracle temp config.fq_table config.month_column
        (some []) (str "instar")).2 ++ [StoreCall.deleteTable temp] := by
    unfold import_merge_cleanup
    cases hr : (append_rows clientRes oracle temp config.fq_table
      config.month_column (some []) (str "instar")).1 <;> simp [hr]
  exact ⟨h1, by rw [h1]; exact List.mem_append_right _ (List.mem_singleton.mpr rfl)⟩

/-- C10: `export_rows` guards emptiness on the raw month list only; for a
nonempty request whose normalized set is empty, it does not raise the
empty-selection error and issues the store query with an empty `@months`
parameter (after the schema lookup), unlike delete's normalized-set guard. -/
theorem C10_export_rows_raw_guard_only (schemaOracle : SchemaOracle)
    (queryOracle : QueryOracle) (config : TableConfig) (months : List PyStr)
    (dt : PyStr) (cols : List PyStr) (hne : months ≠ [])
    (hnorm : (if dt = str "admedia" then normalize_admedia_months months
      else normalize_instar_months months) = [])
    (hpat : tablePatternMatch (pyStrip config.fq_table) = true)
    (hso : schemaOracle (pyStrip config.fq_table) = .ok cols) :
    (export_rows (.ok ()) schemaOracle queryOracle config months dt none).1 ≠
      .error exportEmptyMonthsErr ∧
    (export_rows (.ok ()) schemaOracle queryOracle config months dt none).2 =
      [StoreCall.getTable (pyStrip config.fq_table),
        StoreCall.selectExport config.fq_table config.month_column none []] := by
  have hkey : export_rows (.ok ()) schemaOracle queryOracle config months dt none =
      (match queryOracle (StoreCall.selectExport config.fq_table
          config.month_column none []) with
       | .ok rows => (.ok (cols, rows),
          [StoreCall.getTable (pyStrip config.fq_table),
            StoreCall.selectExport config.fq_table config.month_column none []])
       | .error m => (.error (exportErrMsg config.fq_table m),
          [StoreCall.getTable (pyStrip config.fq_table),
            StoreCall.selectExport config.fq_table config.month_column none []])) := by
    unfold export_rows
    rw [isEmpty_false_of_ne_nil hne]
    rw [if_neg (by simp), hnorm, list_columns_ok hpat hso]
    rfl
  constructor
  · rw [hkey]
    cases hq : queryOracle (StoreCall.selectExport config.fq_table
        config.month_column none []) with
    | ok rows => simp
    | error m =>
      intro he
      have he2 : exportErrMsg config.fq_table m = exportEmptyMonthsErr :=
        Except.error.inj he
      have h1 : (exportErrMsg config.fq_table m).head? = some 'E' := by
        unfold exportErrMsg
        rw [List.append_assoc, List.append_assoc, head?_append_left (by decide)]
        rfl
      rw [he2] at h1
      exact absurd h1 (by decide)
  · rw [hkey]
    cases queryOracle (StoreCall.selectExport config.fq_table
      config.month_column none []) <;> rfl

/-- C9: `format_admedia_stored` is idempotent on every input string — not
only on already-canonical values but also on the fallthrough branches that
return the trimmed original (no parts, or a month part that fails to parse
as an integer). -/
theorem C9_format_admedia_stored_idem (s : PyStr) :
    format_admedia_stored (format_admedia_stored s) = format_admedia_stored s :=
  format_admedia_stored_idem_aux s

/-- Witness for C10 at a concrete whitespace-only month list. -/
theorem C10_witness :
    ([str " "] : List PyStr) ≠ [] ∧
    normalize_instar_months [str " "] = [] ∧
    (export_rows (.ok ()) (fun _ => .ok [str "colA"]) (fun _ => .ok [])
      ⟨str "p", str "d", str "t", str "m"⟩ [str " "] (str "instar") none).2 =
      [StoreCall.getTable (pyStrip (TableConfig.fq_table ⟨str "p", str "d", str "t", str "m"⟩)),
        StoreCall.selectExport (TableConfig.fq_table ⟨str "p", str "d", str "t", str "m"⟩)
          (str "m") none []] := by
  refine ⟨by decide, by decide, ?_⟩
  exact (C10_export_rows_raw_guard_only (fun _ => .ok [str "colA"]) (fun _ => .ok [])
    ⟨str "p", str "d", str "t", str "m"⟩ [str " "] (str "instar") [str "colA"]
    (by decide) (by decide) (by decide) rfl).2

end Bayer
